import Mathlib

/-!
Verification of the pISO drive-registry (`src/pISO/include/piso.hpp`) against its
specification. The header is declaration-only: the bodies of `pISO::add_drive`,
`pISO::remove_drive`, `pISO::rebuild_drives_from_volumes`, `pISO::percent_used`,
`pISO::on_next`, `pISO::on_prev`, `pISO::update_list_items` and the constructor
live in a translation unit that is not part of the fragment, so those operations
are modelled from the spec. What IS defined inline in the header — the
`NewDriveItem::on_next`/`on_prev` leaves, the mutable `drives()` accessor and the
Meyers-singleton `instance()` — is embedded directly from that code.
-/

/-- A raw storage extent managed by the pool: `{id, capacity}` as reported by
`StorageVolumePool::enumerate_volumes()`. -/
structure Volume where
  vid : Nat
  capacity : Nat
deriving DecidableEq

/-- Modelled from the spec: the external `StorageVolumePool` (§6) — total
capacity, the ordered sequence of currently-allocated volumes, and a fresh-id
counter standing for whatever unique identifiers the backend hands out. -/
structure Pool where
  total : Nat
  volumes : List Volume
  nextId : Nat
deriving DecidableEq

/-- Capacity currently allocated to volumes. -/
def Pool.allocatedCapacity (p : Pool) : Nat :=
  (p.volumes.map Volume.capacity).sum

/-- `total_capacity()` of the pool interface. -/
def Pool.total_capacity (p : Pool) : Nat := p.total

/-- `remaining_capacity()` of the pool interface. -/
def Pool.remaining_capacity (p : Pool) : Nat :=
  p.total - p.allocatedCapacity

/-- The volume identifiers currently reported by the pool, in pool order. -/
def Pool.ids (p : Pool) : List Nat := p.volumes.map Volume.vid

/-- The error taxonomy of §7 restricted to what the registry operations raise. -/
inductive PisoError where
  | InsufficientSpace
  | NotFound
deriving DecidableEq

/-- Modelled from the spec: `allocate(size) -> volume handle, fails
InsufficientSpace` (§6). A fresh volume of exactly `size` bytes is carved out of
the remaining capacity. -/
def Pool.allocate (p : Pool) (size : Nat) : Pool × Except PisoError Volume :=
  if size ≤ p.remaining_capacity then
    (⟨p.total, p.volumes ++ [⟨p.nextId, size⟩], p.nextId + 1⟩,
      Except.ok ⟨p.nextId, size⟩)
  else (p, Except.error PisoError.InsufficientSpace)

/-- Modelled from the spec: `free(volume_id) -> fails NotFound if unknown` (§6). -/
def Pool.free (p : Pool) (x : Nat) : Pool × Except PisoError Unit :=
  if x ∈ p.ids then
    (⟨p.total, p.volumes.filter (fun v => v.vid ≠ x), p.nextId⟩, Except.ok ())
  else (p, Except.error PisoError.NotFound)

/-- `VirtualDrive`: wraps one backing volume — `{backing volume identifier,
capacity in bytes}` (§3; the optional label plays no role in any claim). -/
structure VirtualDrive where
  volumeId : Nat
  capacity : Nat
deriving DecidableEq

/-- The registry state: the pool it accounts against, the ordered drive
sequence `m_drives`, and the menu focus index over `drives + NewDriveEntry`. -/
structure pISO where
  pool : Pool
  m_drives : List VirtualDrive
  focus : Nat
deriving DecidableEq

/-- Sum of the capacities of the current drives. -/
def pISO.used (s : pISO) : Nat :=
  (s.m_drives.map VirtualDrive.capacity).sum

/-- The identifiers held by the current drives, in menu order. -/
def pISO.driveIds (s : pISO) : List Nat :=
  s.m_drives.map VirtualDrive.volumeId

/-- Modelled from the spec: `pISO::add_drive(uint64_t size)` (declared only in
the header). Requires `size > 0` and `size ≤ remaining_capacity()`, failing
`InsufficientSpace` otherwise with all state unchanged; on success allocates an
extent of exactly `size` from the pool, wraps it as a new `VirtualDrive`
appended after all existing drives, and returns that drive (§4.2). -/
def pISO.add_drive (s : pISO) (size : Nat) : pISO × Except PisoError VirtualDrive :=
  if 0 < size then
    match s.pool.allocate size with
    | (p', Except.ok v) =>
        (⟨p', s.m_drives ++ [⟨v.vid, v.capacity⟩], s.focus⟩,
          Except.ok ⟨v.vid, v.capacity⟩)
    | (_, Except.error e) => (s, Except.error e)
  else (s, Except.error PisoError.InsufficientSpace)

/-- Modelled from the spec: `pISO::remove_drive` (declared only in the header).
Fails `NotFound` when no drive carries the identifier; on success frees the
backing volume via the pool, erases the entry keeping the remainder's relative
order, and clamps the focus if it now points past the end (§4.2). -/
def pISO.remove_drive (s : pISO) (x : Nat) : pISO × Except PisoError Unit :=
  if x ∈ s.driveIds then
    match s.pool.free x with
    | (p', Except.ok _) =>
        let ds := s.m_drives.filter (fun d => d.volumeId ≠ x)
        (⟨p', ds, min s.focus ds.length⟩, Except.ok ())
    | (_, Except.error e) => (s, Except.error e)
  else (s, Except.error PisoError.NotFound)

/-- Modelled from the spec: `pISO::rebuild_drives_from_volumes()` (declared only
in the header). Retains, in their current relative order, the wrappers whose
volume id the pool still reports; appends, in pool order, fresh wrappers for
volumes with no matching wrapper; drops wrappers whose id is gone (§4.2). -/
def pISO.rebuild_drives_from_volumes (s : pISO) : pISO :=
  let retained := s.m_drives.filter (fun d => d.volumeId ∈ s.pool.ids)
  let freshly := (s.pool.volumes.filter (fun v => v.vid ∉ s.driveIds)).map
    (fun v => VirtualDrive.mk v.vid v.capacity)
  let ds := retained ++ freshly
  ⟨s.pool, ds, min s.focus ds.length⟩

/-- Modelled from the spec: `pISO::percent_used()` — `(Σ capacities of current
drives) / pool.total_capacity() × 100`, defined as `0` when the total capacity
is `0` (§4.2). A function of the state alone: purity is by construction. -/
def pISO.percent_used (s : pISO) : ℚ :=
  if s.pool.total_capacity = 0 then 0
  else (s.used : ℚ) / (s.pool.total_capacity : ℚ) * 100

/-- One entry of the rendered menu: a drive, or the perpetual NewDriveEntry. -/
inductive MenuEntry where
  | drive (d : VirtualDrive)
  | newDrive
deriving DecidableEq

/-- Modelled from the spec: the rendered child sequence that
`pISO::update_list_items()` rebuilds — the drives, in order, then the
`m_newdrive` entry (§4.2). -/
def pISO.list_items (s : pISO) : List MenuEntry :=
  s.m_drives.map MenuEntry.drive ++ [MenuEntry.newDrive]

/-- Number of menu entries (drives plus the NewDriveEntry). -/
def pISO.entryCount (s : pISO) : Nat := s.m_drives.length + 1

/-- Modelled from the spec: `pISO::on_next()` — shift focus forward by one,
clamped at the last entry, reporting whether the event was consumed (§4.2). -/
def pISO.on_next (s : pISO) : pISO × Bool :=
  if s.focus + 1 < s.entryCount then (⟨s.pool, s.m_drives, s.focus + 1⟩, true)
  else (s, false)

/-- Modelled from the spec: `pISO::on_prev()` — shift focus backward by one,
clamped at the first entry, reporting whether the event was consumed (§4.2). -/
def pISO.on_prev (s : pISO) : pISO × Bool :=
  if 0 < s.focus then (⟨s.pool, s.m_drives, s.focus - 1⟩, true)
  else (s, false)

/-- The `NewDriveItem` menu leaf. In the header it holds only a back-reference
to the owning registry, which the shallow embedding carries no state for. -/
structure NewDriveItem where
deriving DecidableEq

/-- Embedded from the header: `virtual bool on_next() override { return false; }`. -/
def NewDriveItem.on_next (_ : NewDriveItem) : Bool := false

/-- Embedded from the header: `virtual bool on_prev() override { return false; }`. -/
def NewDriveItem.on_prev (_ : NewDriveItem) : Bool := false

/-- Modelled from the spec: the constructor (private, body not in the
fragment) starts from an empty drive sequence and performs reconciliation
against the pool before any navigation occurs (§2, §3). -/
def pISO.construct (p : Pool) : pISO :=
  pISO.rebuild_drives_from_volumes ⟨p, [], 0⟩

/-- Embedded from the header: `static pISO &instance()` with its
function-local `static pISO piso`. The process-wide slot holds at most one
registry by type; a call constructs it exactly on first use and every call
returns the object stored in the slot. -/
def processInstance (pool : Pool) (slot : Option pISO) : Option pISO × pISO :=
  match slot with
  | none => (some (pISO.construct pool), pISO.construct pool)
  | some s => (some s, s)

/-- The public mutation surface of the header. Besides `add_drive`,
`remove_drive` and the (private, internally invoked) reconciliation, the header
exposes `std::vector<VirtualDrive> &drives() { return m_drives; }`: a mutable
reference through which a caller can apply any transformation to the sequence —
modelled as `drivesMutate`. Navigation is included for completeness. -/
inductive RegistryOp where
  | addDrive (size : Nat)
  | removeDrive (x : Nat)
  | rescan
  | drivesMutate (f : List VirtualDrive → List VirtualDrive)
  | moveNext
  | movePrev

/-- Apply one public operation to the registry state. -/
def applyOp (op : RegistryOp) (s : pISO) : pISO :=
  match op with
  | RegistryOp.addDrive size => (s.add_drive size).1
  | RegistryOp.removeDrive x => (s.remove_drive x).1
  | RegistryOp.rescan => s.rebuild_drives_from_volumes
  | RegistryOp.drivesMutate f => ⟨s.pool, f s.m_drives, s.focus⟩
  | RegistryOp.moveNext => (s.on_next).1
  | RegistryOp.movePrev => (s.on_prev).1

/-- Well-formedness of the external pool: allocated capacity within the total,
distinct volume identifiers, and every identifier below the fresh counter. -/
def PoolInv (p : Pool) : Prop :=
  p.allocatedCapacity ≤ p.total ∧ p.ids.Nodup ∧ ∀ v ∈ p.volumes, v.vid < p.nextId

/-- The registry invariant: a well-formed pool, distinct drive identifiers, and
every drive backed by a pool volume of matching identifier and capacity. -/
structure RegInv (s : pISO) : Prop where
  pool_inv : PoolInv s.pool
  drive_ids_nodup : s.driveIds.Nodup
  drive_backed : ∀ d ∈ s.m_drives, ∃ v ∈ s.pool.volumes,
    v.vid = d.volumeId ∧ v.capacity = d.capacity

/-- Registry states reachable through the registry's own lifecycle:
construction against a well-formed pool, then `add_drive`, `remove_drive`,
reconciliation, and menu navigation. -/
inductive Reachable : pISO → Prop where
  | boot (p : Pool) : PoolInv p → Reachable (pISO.construct p)
  | add (s : pISO) (size : Nat) : Reachable s → Reachable (s.add_drive size).1
  | remove (s : pISO) (x : Nat) : Reachable s → Reachable (s.remove_drive x).1
  | rescan (s : pISO) : Reachable s → Reachable s.rebuild_drives_from_volumes
  | next (s : pISO) : Reachable s → Reachable (s.on_next).1
  | prev (s : pISO) : Reachable s → Reachable (s.on_prev).1

/-- A concrete pool for witnesses: total 1000, no volumes yet. -/
def pool0 : Pool := ⟨1000, [], 0⟩

/-- A concrete empty registry state over `pool0` for witnesses. -/
def s0 : pISO := ⟨pool0, [], 0⟩

/-- A concrete registry state holding a wrapper (id 5) whose volume the pool no
longer reports, next to a still-backed wrapper (id 3), for witnesses. -/
def s1 : pISO := ⟨⟨1000, [⟨3, 10⟩], 8⟩, [⟨3, 10⟩, ⟨5, 7⟩], 0⟩

/-- Sums over `Nat` only shrink along sublists. -/
lemma nat_sum_le_of_sublist {l1 l2 : List Nat} (h : l1.Sublist l2) : l1.sum ≤ l2.sum := by
  induction h with
  | slnil => exact Nat.le_refl 0
  | cons a _ ih => simpa using Nat.le_trans ih (Nat.le_add_left _ _)
  | cons₂ a _ ih => simpa using ih

/-- Drives with distinct identifiers, each backed by a volume of matching
identifier and capacity, cannot outweigh the volumes backing them. -/
lemma sum_caps_le_of_backed (ds : List VirtualDrive) (vols : List Volume)
    (hnd : (ds.map VirtualDrive.volumeId).Nodup)
    (hb : ∀ d ∈ ds, ∃ v ∈ vols, v.vid = d.volumeId ∧ v.capacity = d.capacity) :
    (ds.map VirtualDrive.capacity).sum ≤ (vols.map Volume.capacity).sum := by
  induction ds generalizing vols with
  | nil => exact Nat.zero_le _
  | cons d ds ih =>
      obtain ⟨v, hv, hvid, hvcap⟩ := hb d (List.mem_cons_self d ds)
      simp only [List.map_cons, List.nodup_cons] at hnd
      have hsub : ∀ d' ∈ ds, ∃ v' ∈ vols.erase v, v'.vid = d'.volumeId ∧ v'.capacity = d'.capacity := by
        intro d' hd'
        obtain ⟨v', hv', hvid', hvcap'⟩ := hb d' (List.mem_cons_of_mem d hd')
        refine ⟨v', ?_, hvid', hvcap'⟩
        have hne : v' ≠ v := by
          intro hEq
          apply hnd.1
          rw [← hvid, ← hEq, hvid']
          exact List.mem_map_of_mem VirtualDrive.volumeId hd'
        exact (List.mem_erase_of_ne hne).mpr hv'
      have hperm : (vols.map Volume.capacity).sum
          = v.capacity + ((vols.erase v).map Volume.capacity).sum := by
        have := (List.perm_cons_erase hv).map Volume.capacity
        simpa using this.sum_eq
      calc ((d :: ds).map VirtualDrive.capacity).sum
          = d.capacity + (ds.map VirtualDrive.capacity).sum := by simp
        _ ≤ d.capacity + ((vols.erase v).map Volume.capacity).sum :=
            Nat.add_le_add_left (ih (vols.erase v) hnd.2 hsub) _
        _ = (vols.map Volume.capacity).sum := by rw [hperm, hvcap]

/-- Shape of a successful `add_drive`. -/
lemma add_drive_of_le (s : pISO) (size : Nat) (h1 : 0 < size)
    (h2 : size ≤ s.pool.remaining_capacity) :
    s.add_drive size =
      (⟨⟨s.pool.total, s.pool.volumes ++ [⟨s.pool.nextId, size⟩], s.pool.nextId + 1⟩,
        s.m_drives ++ [⟨s.pool.nextId, size⟩], s.focus⟩,
       Except.ok ⟨s.pool.nextId, size⟩) := by
  simp [pISO.add_drive, Pool.allocate, h1, h2]

/-- Shape of a failing `add_drive`: the state is returned untouched. -/
lemma add_drive_of_gt (s : pISO) (size : Nat)
    (h : s.pool.remaining_capacity < size ∨ size = 0) :
    s.add_drive size = (s, Except.error PisoError.InsufficientSpace) := by
  rcases h with h | h
  · have h1 : 0 < size := Nat.lt_of_le_of_lt (Nat.zero_le _) h
    simp [pISO.add_drive, Pool.allocate, h1, Nat.not_le.mpr h]
  · simp [pISO.add_drive, h]

/-- Shape of a successful `remove_drive`: the identifier is held by some drive
and, as the invariant guarantees, also known to the pool. -/
lemma remove_drive_of_mem (s : pISO) (x : Nat) (hd : x ∈ s.driveIds)
    (hp : x ∈ s.pool.ids) :
    s.remove_drive x =
      (⟨⟨s.pool.total, s.pool.volumes.filter (fun v => v.vid ≠ x), s.pool.nextId⟩,
        s.m_drives.filter (fun d => d.volumeId ≠ x),
        min s.focus (s.m_drives.filter (fun d => d.volumeId ≠ x)).length⟩,
       Except.ok ()) := by
  simp [pISO.remove_drive, Pool.free, hd, hp]

/-- `remove_drive` on an identifier no drive holds fails `NotFound` untouched. -/
lemma remove_drive_of_not_mem (s : pISO) (x : Nat) (hd : x ∉ s.driveIds) :
    s.remove_drive x = (s, Except.error PisoError.NotFound) := by
  simp [pISO.remove_drive, hd]

/-- Reconciliation never touches the pool. -/
lemma rebuild_pool_eq (s : pISO) : (s.rebuild_drives_from_volumes).pool = s.pool := rfl

/-- The drive list produced by reconciliation: the retained wrappers, in their
current relative order, followed by fresh wrappers in pool-reported order. -/
lemma rebuild_drives_eq (s : pISO) :
    (s.rebuild_drives_from_volumes).m_drives
      = s.m_drives.filter (fun d => d.volumeId ∈ s.pool.ids)
        ++ (s.pool.volumes.filter (fun v => v.vid ∉ s.driveIds)).map
            (fun v => VirtualDrive.mk v.vid v.capacity) := rfl

/-- Every drive surviving reconciliation names a volume the pool reports. -/
lemma mem_ids_of_mem_rebuild (s : pISO) :
    ∀ d ∈ (s.rebuild_drives_from_volumes).m_drives, d.volumeId ∈ s.pool.ids := by
  intro d hd
  rw [rebuild_drives_eq] at hd
  rcases List.mem_append.mp hd with h | h
  · simpa using (List.mem_filter.mp h).2
  · obtain ⟨v, hv, rfl⟩ := List.mem_map.mp h
    exact List.mem_map_of_mem Volume.vid (List.mem_of_mem_filter hv)

/-- After reconciliation every pool volume has a wrapper. -/
lemma pool_ids_sub_rebuild (s : pISO) :
    ∀ v ∈ s.pool.volumes, v.vid ∈ (s.rebuild_drives_from_volumes).driveIds := by
  intro v hv
  by_cases hc : v.vid ∈ s.driveIds
  · obtain ⟨d, hd, hdid⟩ := List.mem_map.mp hc
    have hdr : d ∈ (s.rebuild_drives_from_volumes).m_drives := by
      rw [rebuild_drives_eq]
      refine List.mem_append_left _ (List.mem_filter.mpr ⟨hd, ?_⟩)
      simp only [decide_eq_true_eq, hdid]
      exact List.mem_map_of_mem Volume.vid hv
    rw [← hdid]
    exact List.mem_map_of_mem VirtualDrive.volumeId hdr
  · have hvf : v ∈ s.pool.volumes.filter (fun v => v.vid ∉ s.driveIds) :=
      List.mem_filter.mpr ⟨hv, by simpa using hc⟩
    have : VirtualDrive.mk v.vid v.capacity ∈ (s.rebuild_drives_from_volumes).m_drives := by
      rw [rebuild_drives_eq]
      exact List.mem_append_right _ (List.mem_map_of_mem _ hvf)
    exact List.mem_map_of_mem VirtualDrive.volumeId this

/-- Running reconciliation twice against the unchanged pool yields the same
drive list as running it once. -/
lemma rebuild_idem (s : pISO) :
    (s.rebuild_drives_from_volumes.rebuild_drives_from_volumes).m_drives
      = (s.rebuild_drives_from_volumes).m_drives := by
  rw [rebuild_drives_eq s.rebuild_drives_from_volumes]
  have h1 : (s.rebuild_drives_from_volumes).m_drives.filter
      (fun d => d.volumeId ∈ (s.rebuild_drives_from_volumes).pool.ids)
      = (s.rebuild_drives_from_volumes).m_drives := by
    refine List.filter_eq_self.mpr ?_
    intro d hd
    simpa [rebuild_pool_eq] using mem_ids_of_mem_rebuild s d hd
  have h2 : (s.rebuild_drives_from_volumes).pool.volumes.filter
      (fun v => v.vid ∉ (s.rebuild_drives_from_volumes).driveIds) = [] := by
    refine List.filter_eq_nil_iff.mpr ?_
    intro v hv
    simpa using pool_ids_sub_rebuild s v hv
  rw [h1, h2]
  simp

/-- The invariant survives reconciliation. -/
lemma regInv_rebuild (s : pISO) (h : RegInv s) : RegInv s.rebuild_drives_from_volumes := by
  obtain ⟨hpool, hnd, hb⟩ := h
  refine ⟨hpool, ?_, ?_⟩
  · show ((s.rebuild_drives_from_volumes).m_drives.map VirtualDrive.volumeId).Nodup
    rw [rebuild_drives_eq, List.map_append]
    apply List.Nodup.append
    · exact ((List.filter_sublist _).map VirtualDrive.volumeId).nodup hnd
    · have hs : ((s.pool.volumes.filter (fun v => v.vid ∉ s.driveIds)).map
          (fun v => VirtualDrive.mk v.vid v.capacity)).map VirtualDrive.volumeId
          = (s.pool.volumes.filter (fun v => v.vid ∉ s.driveIds)).map Volume.vid := by
        simp
      rw [hs]
      exact ((List.filter_sublist _).map Volume.vid).nodup hpool.2.1
    · intro a ha hb'
      obtain ⟨d, hd, rfl⟩ := List.mem_map.mp ha
      have hmem : d.volumeId ∈ s.driveIds :=
        List.mem_map_of_mem VirtualDrive.volumeId (List.mem_of_mem_filter hd)
      obtain ⟨e, he, heid⟩ := List.mem_map.mp hb'
      obtain ⟨v, hv, rfl⟩ := List.mem_map.mp he
      have : v.vid ∉ s.driveIds := by simpa using (List.mem_filter.mp hv).2
      have heq : v.vid = d.volumeId := heid
      exact this (heq ▸ hmem)
  · intro d hd
    rw [rebuild_pool_eq]
    rw [rebuild_drives_eq] at hd
    rcases List.mem_append.mp hd with hmem | hmem
    · exact hb d (List.mem_of_mem_filter hmem)
    · obtain ⟨v, hv, rfl⟩ := List.mem_map.mp hmem
      exact ⟨v, List.mem_of_mem_filter hv, rfl, rfl⟩

/-- The invariant survives `add_drive`. -/
lemma regInv_add (s : pISO) (size : Nat) (h : RegInv s) : RegInv (s.add_drive size).1 := by
  obtain ⟨⟨hcap, hvnd, hvlt⟩, hnd, hb⟩ := h
  by_cases h1 : 0 < size
  · by_cases h2 : size ≤ s.pool.remaining_capacity
    · rw [add_drive_of_le s size h1 h2]
      have hfresh : ∀ v ∈ s.pool.volumes, v.vid ≠ s.pool.nextId :=
        fun v hv => Nat.ne_of_lt (hvlt v hv)
      refine ⟨⟨?_, ?_, ?_⟩, ?_, ?_⟩
      · show ((s.pool.volumes ++ [Volume.mk s.pool.nextId size]).map Volume.capacity).sum ≤ s.pool.total
        rw [List.map_append, List.sum_append]
        have := Nat.le_trans h2 (Nat.sub_le _ _)
        simp only [List.map_cons, List.map_nil, List.sum_cons, List.sum_nil]
        have hrem : size ≤ s.pool.total - (s.pool.volumes.map Volume.capacity).sum := h2
        have hal : (s.pool.volumes.map Volume.capacity).sum ≤ s.pool.total := hcap
        omega
      · show ((s.pool.volumes ++ [Volume.mk s.pool.nextId size]).map Volume.vid).Nodup
        rw [List.map_append]
        refine List.Nodup.append hvnd (by simp) ?_
        intro a ha hmem
        obtain ⟨v, hv, rfl⟩ := List.mem_map.mp ha
        simp only [List.map_cons, List.map_nil, List.mem_singleton] at hmem
        exact hfresh v hv hmem
      · intro v hv
        rcases List.mem_append.mp hv with hmem | hmem
        · exact Nat.lt_trans (hvlt v hmem) (Nat.lt_succ_self _)
        · simp only [List.mem_singleton] at hmem
          rw [hmem]
          exact Nat.lt_succ_self _
      · show ((s.m_drives ++ [VirtualDrive.mk s.pool.nextId size]).map VirtualDrive.volumeId).Nodup
        rw [List.map_append]
        refine List.Nodup.append hnd (by simp) ?_
        intro a ha hmem
        obtain ⟨d, hd, rfl⟩ := List.mem_map.mp ha
        simp only [List.map_cons, List.map_nil, List.mem_singleton] at hmem
        obtain ⟨v, hv, hvid, _⟩ := hb d hd
        exact hfresh v hv (hvid.trans hmem)
      · intro d hd
        rcases List.mem_append.mp hd with hmem | hmem
        · obtain ⟨v, hv, hvid, hvcap⟩ := hb d hmem
          exact ⟨v, List.mem_append_left _ hv, hvid, hvcap⟩
        · simp only [List.mem_singleton] at hmem
          refine ⟨⟨s.pool.nextId, size⟩, List.mem_append_right _ (by simp), ?_, ?_⟩
          · rw [hmem]
          · rw [hmem]
    · rw [add_drive_of_gt s size (Or.inl (Nat.not_le.mp h2))]
      exact ⟨⟨hcap, hvnd, hvlt⟩, hnd, hb⟩
  · rw [add_drive_of_gt s size (Or.inr (Nat.eq_zero_of_not_pos h1))]
    exact ⟨⟨hcap, hvnd, hvlt⟩, hnd, hb⟩

/-- The invariant survives `remove_drive`. -/
lemma regInv_remove (s : pISO) (x : Nat) (h : RegInv s) : RegInv (s.remove_drive x).1 := by
  obtain ⟨⟨hcap, hvnd, hvlt⟩, hnd, hb⟩ := h
  by_cases hd : x ∈ s.driveIds
  · have hp : x ∈ s.pool.ids := by
      obtain ⟨d, hdm, hdid⟩ := List.mem_map.mp hd
      obtain ⟨v, hv, hvid, _⟩ := hb d hdm
      rw [← hdid, ← hvid]
      exact List.mem_map_of_mem Volume.vid hv
    rw [remove_drive_of_mem s x hd hp]
    refine ⟨⟨?_, ?_, ?_⟩, ?_, ?_⟩
    · exact Nat.le_trans
        (nat_sum_le_of_sublist ((List.filter_sublist _).map Volume.capacity)) hcap
    · exact ((List.filter_sublist _).map Volume.vid).nodup hvnd
    · intro v hv
      exact hvlt v (List.mem_of_mem_filter hv)
    · exact ((List.filter_sublist _).map VirtualDrive.volumeId).nodup hnd
    · intro d hdm
      have hdin : d ∈ s.m_drives := List.mem_of_mem_filter hdm
      have hdx : d.volumeId ≠ x := by simpa using (List.mem_filter.mp hdm).2
      obtain ⟨v, hv, hvid, hvcap⟩ := hb d hdin
      refine ⟨v, List.mem_filter.mpr ⟨hv, ?_⟩, hvid, hvcap⟩
      simp only [decide_eq_true_eq]
      rw [hvid]
      exact hdx
  · rw [remove_drive_of_not_mem s x hd]
    exact ⟨⟨hcap, hvnd, hvlt⟩, hnd, hb⟩

/-- Navigation never touches the pool or the drives. -/
lemma on_next_preserves (s : pISO) :
    (s.on_next).1.pool = s.pool ∧ (s.on_next).1.m_drives = s.m_drives := by
  unfold pISO.on_next
  by_cases h : s.focus + 1 < s.entryCount <;> simp [h]

/-- Navigation never touches the pool or the drives. -/
lemma on_prev_preserves (s : pISO) :
    (s.on_prev).1.pool = s.pool ∧ (s.on_prev).1.m_drives = s.m_drives := by
  unfold pISO.on_prev
  by_cases h : 0 < s.focus <;> simp [h]

/-- The invariant only mentions pool and drives, so navigation keeps it. -/
lemma regInv_of_eq (s t : pISO) (hpool : t.pool = s.pool)
    (hdrives : t.m_drives = s.m_drives) (h : RegInv s) : RegInv t := by
  obtain ⟨hpoolInv, hnd, hb⟩ := h
  refine ⟨hpool ▸ hpoolInv, ?_, ?_⟩
  · show (t.m_drives.map VirtualDrive.volumeId).Nodup
    rw [hdrives]
    exact hnd
  · intro d hd
    rw [hdrives] at hd
    rw [hpool]
    exact hb d hd

/-- A freshly constructed registry satisfies the invariant. -/
lemma regInv_construct (p : Pool) (hp : PoolInv p) : RegInv (pISO.construct p) := by
  unfold pISO.construct
  apply regInv_rebuild
  exact ⟨hp, List.nodup_nil, by intro d hd; cases hd⟩

/-- Every reachable registry state satisfies the invariant. -/
lemma reachable_regInv (s : pISO) (h : Reachable s) : RegInv s := by
  induction h with
  | boot p hp => exact regInv_construct p hp
  | add s size _ ih => exact regInv_add s size ih
  | remove s x _ ih => exact regInv_remove s x ih
  | rescan s _ ih => exact regInv_rebuild s ih
  | next s _ ih =>
      exact regInv_of_eq s _ (on_next_preserves s).1 (on_next_preserves s).2 ih
  | prev s _ ih =>
      exact regInv_of_eq s _ (on_prev_preserves s).1 (on_prev_preserves s).2 ih

/-- Claim C1: for every `size` with `0 < size ≤ pool.remaining_capacity()`,
`add_drive(size)` succeeds — it allocates an extent of exactly `size` bytes
from the pool, appends the new VirtualDrive after all existing drives (before
NewDriveEntry in the rendered sequence), increases the drive count by exactly
1, decreases `remaining_capacity()` by exactly `size`, and returns the new
drive. -/
theorem add_drive_success_spec (s : pISO) (size : Nat)
    (h1 : 0 < size) (h2 : size ≤ s.pool.remaining_capacity) :
    ∃ d : VirtualDrive,
      (s.add_drive size).2 = Except.ok d ∧
      d.capacity = size ∧
      (s.add_drive size).1.m_drives = s.m_drives ++ [d] ∧
      (s.add_drive size).1.list_items
        = s.m_drives.map MenuEntry.drive ++ [MenuEntry.drive d, MenuEntry.newDrive] ∧
      (s.add_drive size).1.m_drives.length = s.m_drives.length + 1 ∧
      (s.add_drive size).1.pool.volumes = s.pool.volumes ++ [Volume.mk d.volumeId size] ∧
      (s.add_drive size).1.pool.remaining_capacity + size = s.pool.remaining_capacity := by
  refine ⟨⟨s.pool.nextId, size⟩, ?_⟩
  rw [add_drive_of_le s size h1 h2]
  refine ⟨rfl, rfl, rfl, by simp [pISO.list_items], by simp, rfl, ?_⟩
  show s.pool.total - ((s.pool.volumes ++ [Volume.mk s.pool.nextId size]).map Volume.capacity).sum
      + size = s.pool.remaining_capacity
  have h2' : size ≤ s.pool.total - (s.pool.volumes.map Volume.capacity).sum := h2
  rw [List.map_append, List.sum_append]
  show s.pool.total - ((s.pool.volumes.map Volume.capacity).sum + size) + size
      = s.pool.total - (s.pool.volumes.map Volume.capacity).sum
  omega

/-- Witness for C1 at the empty registry over a 1000-byte pool and size 300. -/
theorem add_drive_success_spec_w :
    ∃ d : VirtualDrive,
      (s0.add_drive 300).2 = Except.ok d ∧
      d.capacity = 300 ∧
      (s0.add_drive 300).1.m_drives = s0.m_drives ++ [d] ∧
      (s0.add_drive 300).1.list_items
        = s0.m_drives.map MenuEntry.drive ++ [MenuEntry.drive d, MenuEntry.newDrive] ∧
      (s0.add_drive 300).1.m_drives.length = s0.m_drives.length + 1 ∧
      (s0.add_drive 300).1.pool.volumes = s0.pool.volumes ++ [Volume.mk d.volumeId 300] ∧
      (s0.add_drive 300).1.pool.remaining_capacity + 300 = s0.pool.remaining_capacity :=
  add_drive_success_spec s0 300 (by decide) (by decide)

/-- Claim C2: `add_drive(size)` with `size > remaining_capacity()` or
`size = 0` fails `InsufficientSpace` and is atomic — the post-state is exactly
the pre-state, so drive count, drive sequence and `remaining_capacity()` are
unchanged and no partial mutation is observable. -/
theorem add_drive_insufficient_spec (s : pISO) (size : Nat)
    (h : s.pool.remaining_capacity < size ∨ size = 0) :
    (s.add_drive size).1 = s ∧
    (s.add_drive size).2 = Except.error PisoError.InsufficientSpace := by
  rw [add_drive_of_gt s size h]
  exact ⟨rfl, rfl⟩

/-- Witness for C2 at the empty registry over a 1000-byte pool and size 2000. -/
theorem add_drive_insufficient_spec_w :
    (s0.add_drive 2000).1 = s0 ∧
    (s0.add_drive 2000).2 = Except.error PisoError.InsufficientSpace :=
  add_drive_insufficient_spec s0 2000 (Or.inl (by decide))

/-- Claim C3: `rebuild_drives_from_volumes()` is idempotent against an
unchanged pool — a second run yields the identical ordered drive list; one run
retains every wrapper whose volume id the pool still reports in its relative
position, appends wrappers for new volumes in pool-reported order after all
retained drives (the second summand of the characterisation), and drops every
wrapper whose volume id is no longer reported. -/
theorem rebuild_reconciliation_spec (s : pISO) :
    (s.rebuild_drives_from_volumes.rebuild_drives_from_volumes).m_drives
        = (s.rebuild_drives_from_volumes).m_drives ∧
    (s.rebuild_drives_from_volumes).m_drives
        = s.m_drives.filter (fun d => d.volumeId ∈ s.pool.ids)
          ++ (s.pool.volumes.filter (fun v => v.vid ∉ s.driveIds)).map
              (fun v => VirtualDrive.mk v.vid v.capacity) ∧
    (∀ d ∈ s.m_drives, d.volumeId ∈ s.pool.ids →
        d ∈ (s.rebuild_drives_from_volumes).m_drives) ∧
    (∀ d ∈ s.m_drives, d.volumeId ∉ s.pool.ids →
        d ∉ (s.rebuild_drives_from_volumes).m_drives) := by
  refine ⟨rebuild_idem s, rebuild_drives_eq s, ?_, ?_⟩
  · intro d hd hid
    rw [rebuild_drives_eq]
    exact List.mem_append_left _ (List.mem_filter.mpr ⟨hd, by simpa using hid⟩)
  · intro d _ hid hmem
    exact hid (mem_ids_of_mem_rebuild s d hmem)

/-- Witness for C3 at a registry holding a still-backed wrapper (id 3) and a
stale wrapper (id 5): the second run changes nothing, the stale wrapper is
dropped, the backed one survives. -/
theorem rebuild_reconciliation_spec_w :
    (s1.rebuild_drives_from_volumes.rebuild_drives_from_volumes).m_drives
        = (s1.rebuild_drives_from_volumes).m_drives ∧
    VirtualDrive.mk 3 10 ∈ (s1.rebuild_drives_from_volumes).m_drives ∧
    VirtualDrive.mk 5 7 ∉ (s1.rebuild_drives_from_volumes).m_drives :=
  ⟨(rebuild_reconciliation_spec s1).1,
   (rebuild_reconciliation_spec s1).2.2.1 ⟨3, 10⟩ (by decide) (by decide),
   (rebuild_reconciliation_spec s1).2.2.2 ⟨5, 7⟩ (by decide) (by decide)⟩

/-- Claim C5: in every reachable registry state the NewDriveEntry is present
and is the last entry of the rendered menu sequence, whatever the drive count. -/
theorem newdrive_last_spec (s : pISO) (_h : Reachable s) :
    s.list_items ≠ [] ∧ s.list_items.getLast? = some MenuEntry.newDrive := by
  constructor
  · simp [pISO.list_items]
  · show (s.m_drives.map MenuEntry.drive ++ [MenuEntry.newDrive]).getLast? = some MenuEntry.newDrive
    rw [List.getLast?_concat]

/-- Witness for C5 at a freshly constructed registry over the empty pool. -/
theorem newdrive_last_spec_w :
    (pISO.construct pool0).list_items ≠ [] ∧
    (pISO.construct pool0).list_items.getLast? = some MenuEntry.newDrive :=
  newdrive_last_spec (pISO.construct pool0) (Reachable.boot pool0 ⟨by decide, by decide, by decide⟩)

/-- Claim C6: `percent_used()` returns `(Σ capacities of current drives) /
pool.total_capacity() × 100`, returns 0 when the total capacity is 0 and when
the drive list is empty; it is a function of the state alone (`pISO → ℚ`), so
calling it mutates no registry or pool state by construction. -/
theorem percent_used_spec (s : pISO) :
    (s.pool.total_capacity = 0 → s.percent_used = 0) ∧
    (s.m_drives = [] → s.percent_used = 0) ∧
    (s.pool.total_capacity ≠ 0 →
      s.percent_used = (s.used : ℚ) / (s.pool.total_capacity : ℚ) * 100) := by
  refine ⟨?_, ?_, ?_⟩
  · intro h
    simp [pISO.percent_used, h]
  · intro h
    by_cases ht : s.pool.total_capacity = 0
    · simp [pISO.percent_used, ht]
    · simp [pISO.percent_used, ht, pISO.used, h]
  · intro h
    simp [pISO.percent_used, h]

/-- Witness for C6 at the empty registry over a 1000-byte pool. -/
theorem percent_used_spec_w : s0.percent_used = 0 :=
  (percent_used_spec s0).2.1 rfl

/-- Claim C8: `move_next`/`move_prev` shift the focus by exactly one within the
entry sequence and are clamped at both ends with no wraparound — at the last
entry `on_next` and at the first entry `on_prev` leave the focus unchanged and
return `false` ("not consumed"); `NewDriveItem`'s own `on_next`/`on_prev`
return `false` on every call. -/
theorem navigation_clamped_spec (s : pISO) :
    (s.focus + 1 < s.entryCount → s.on_next = (⟨s.pool, s.m_drives, s.focus + 1⟩, true)) ∧
    (s.entryCount ≤ s.focus + 1 → s.on_next = (s, false)) ∧
    (0 < s.focus → s.on_prev = (⟨s.pool, s.m_drives, s.focus - 1⟩, true)) ∧
    (s.focus = 0 → s.on_prev = (s, false)) ∧
    (∀ item : NewDriveItem, item.on_next = false ∧ item.on_prev = false) := by
  refine ⟨?_, ?_, ?_, ?_, fun _ => ⟨rfl, rfl⟩⟩
  · intro h
    simp [pISO.on_next, h]
  · intro h
    simp [pISO.on_next, Nat.not_lt.mpr h]
  · intro h
    simp [pISO.on_prev, h]
  · intro h
    simp [pISO.on_prev, h]

/-- Witness for C8 at the empty registry: the single entry is both first and
last, so both directions stay put and report "not consumed"; the NewDriveItem
leaf reports "not consumed" as well. -/
theorem navigation_clamped_spec_w :
    s0.on_next = (s0, false) ∧ s0.on_prev = (s0, false) ∧
    NewDriveItem.on_next ⟨⟩ = false ∧ NewDriveItem.on_prev ⟨⟩ = false :=
  ⟨(navigation_clamped_spec s0).2.1 (by decide),
   (navigation_clamped_spec s0).2.2.2.1 rfl,
   ((navigation_clamped_spec s0).2.2.2.2 ⟨⟩).1,
   ((navigation_clamped_spec s0).2.2.2.2 ⟨⟩).2⟩

/-- Claim C10 (implicit): the registry admits exactly one instance per
process. The model of `static pISO &instance()` keeps the single
function-local static in an `Option pISO` slot (constructor private, copies
deleted: the slot is the only way to reach a registry). Every call returns
precisely the object stored in the slot, the first call constructs it exactly
once, and a call on an initialised slot returns it unchanged — so any two
calls observe and mutate identical state. -/
theorem instance_singleton_spec (pool : Pool) (slot : Option pISO) :
    (processInstance pool slot).1 = some (processInstance pool slot).2 ∧
    (∀ s : pISO, processInstance pool (some s) = (some s, s)) ∧
    (processInstance pool (processInstance pool slot).1).2
        = (processInstance pool slot).2 ∧
    processInstance pool none = (some (pISO.construct pool), pISO.construct pool) := by
  cases slot with
  | none => exact ⟨rfl, fun s => rfl, rfl, rfl⟩
  | some s => exact ⟨rfl, fun t => rfl, rfl, rfl⟩

/-- Removing the unique drive carrying an identifier shortens the list by
exactly one. -/
lemma filter_ne_length (ds : List VirtualDrive) (x : Nat)
    (hnd : (ds.map VirtualDrive.volumeId).Nodup)
    (hx : x ∈ ds.map VirtualDrive.volumeId) :
    (ds.filter (fun d => d.volumeId ≠ x)).length + 1 = ds.length := by
  induction ds with
  | nil => cases hx
  | cons d ds ih =>
      simp only [List.map_cons, List.nodup_cons, List.mem_cons] at hnd hx
      by_cases hdx : d.volumeId = x
      · have hds : ds.filter (fun d' => d'.volumeId ≠ x) = ds := by
          refine List.filter_eq_self.mpr ?_
          intro d' hd'
          simp only [ne_eq, decide_eq_true_eq]
          intro hEq
          have : d.volumeId ∈ ds.map VirtualDrive.volumeId := by
            rw [hdx, ← hEq]
            exact List.mem_map_of_mem VirtualDrive.volumeId hd'
          exact hnd.1 this
        rw [List.filter_cons_of_neg (by simpa using hdx)]
        rw [hds]
        simp
      · have hx' : x ∈ ds.map VirtualDrive.volumeId := by
          rcases hx with hEq | hmem
          · exact absurd hEq.symm hdx
          · exact hmem
        rw [List.filter_cons_of_pos (by simpa using hdx)]
        simp only [List.length_cons]
        have := ih hnd.2 hx'
        omega

/-- Under the invariant, every identifier held by a drive is known to the pool. -/
lemma mem_pool_ids_of_mem_driveIds (s : pISO) (x : Nat) (h : RegInv s)
    (hx : x ∈ s.driveIds) : x ∈ s.pool.ids := by
  obtain ⟨d, hdm, hdid⟩ := List.mem_map.mp hx
  obtain ⟨v, hv, hvid, _⟩ := h.drive_backed d hdm
  rw [← hdid, ← hvid]
  exact List.mem_map_of_mem Volume.vid hv

/-- Claim C4: `remove_drive` fails `NotFound` when no VirtualDrive holds the
identifier, leaving the state untouched; on success it frees the backing
volume via the pool, erases exactly that entry (one fewer drive, the remainder
a sublist of the original, so relative order is preserved); and removing a
drive created by a prior `add_drive(size)` restores `remaining_capacity()` to
its pre-add value while decreasing the drive count by 1 — indeed it restores
the original drive list. -/
theorem remove_drive_spec :
    (∀ (s : pISO) (x : Nat), x ∉ s.driveIds →
        s.remove_drive x = (s, Except.error PisoError.NotFound)) ∧
    (∀ (s : pISO) (x : Nat), RegInv s → x ∈ s.driveIds →
        (s.remove_drive x).2 = Except.ok () ∧
        (s.remove_drive x).1.m_drives
          = s.m_drives.filter (fun d => d.volumeId ≠ x) ∧
        (s.remove_drive x).1.m_drives.Sublist s.m_drives ∧
        (s.remove_drive x).1.m_drives.length + 1 = s.m_drives.length ∧
        (s.remove_drive x).1.pool.volumes
          = s.pool.volumes.filter (fun v => v.vid ≠ x)) ∧
    (∀ (s : pISO) (size : Nat), RegInv s → 0 < size →
        size ≤ s.pool.remaining_capacity →
        ((s.add_drive size).1.remove_drive s.pool.nextId).2 = Except.ok () ∧
        ((s.add_drive size).1.remove_drive s.pool.nextId).1.m_drives = s.m_drives ∧
        ((s.add_drive size).1.remove_drive s.pool.nextId).1.pool.remaining_capacity
            = s.pool.remaining_capacity ∧
        ((s.add_drive size).1.remove_drive s.pool.nextId).1.m_drives.length + 1
            = (s.add_drive size).1.m_drives.length) := by
  refine ⟨?_, ?_, ?_⟩
  · intro s x hx
    exact remove_drive_of_not_mem s x hx
  · intro s x hInv hx
    rw [remove_drive_of_mem s x hx (mem_pool_ids_of_mem_driveIds s x hInv hx)]
    exact ⟨rfl, rfl, List.filter_sublist _,
      filter_ne_length s.m_drives x hInv.drive_ids_nodup hx, rfl⟩
  · intro s size hInv h1 h2
    have hdne : ∀ d ∈ s.m_drives, d.volumeId ≠ s.pool.nextId := by
      intro d hd
      obtain ⟨v, hv, hvid, _⟩ := hInv.drive_backed d hd
      rw [← hvid]
      exact Nat.ne_of_lt (hInv.pool_inv.2.2 v hv)
    have hvne : ∀ v ∈ s.pool.volumes, v.vid ≠ s.pool.nextId :=
      fun v hv => Nat.ne_of_lt (hInv.pool_inv.2.2 v hv)
    rw [add_drive_of_le s size h1 h2]
    have hmemd : s.pool.nextId ∈
        (pISO.mk ⟨s.pool.total, s.pool.volumes ++ [Volume.mk s.pool.nextId size],
          s.pool.nextId + 1⟩ (s.m_drives ++ [VirtualDrive.mk s.pool.nextId size])
          s.focus).driveIds := by
      simp [pISO.driveIds]
    have hmemp : s.pool.nextId ∈
        (pISO.mk ⟨s.pool.total, s.pool.volumes ++ [Volume.mk s.pool.nextId size],
          s.pool.nextId + 1⟩ (s.m_drives ++ [VirtualDrive.mk s.pool.nextId size])
          s.focus).pool.ids := by
      simp [Pool.ids]
    rw [remove_drive_of_mem _ _ hmemd hmemp]
    have hfd : (s.m_drives ++ [VirtualDrive.mk s.pool.nextId size]).filter
        (fun d => d.volumeId ≠ s.pool.nextId) = s.m_drives := by
      rw [List.filter_append]
      have h1' : s.m_drives.filter (fun d => d.volumeId ≠ s.pool.nextId) = s.m_drives := by
        refine List.filter_eq_self.mpr ?_
        intro d hd
        simpa using hdne d hd
      have h2' : [VirtualDrive.mk s.pool.nextId size].filter
          (fun d => d.volumeId ≠ s.pool.nextId) = [] := by simp
      rw [h1', h2', List.append_nil]
    have hfv : (s.pool.volumes ++ [Volume.mk s.pool.nextId size]).filter
        (fun v => v.vid ≠ s.pool.nextId) = s.pool.volumes := by
      rw [List.filter_append]
      have h1' : s.pool.volumes.filter (fun v => v.vid ≠ s.pool.nextId) = s.pool.volumes := by
        refine List.filter_eq_self.mpr ?_
        intro v hv
        simpa using hvne v hv
      have h2' : [Volume.mk s.pool.nextId size].filter
          (fun v => v.vid ≠ s.pool.nextId) = [] := by simp
      rw [h1', h2', List.append_nil]
    refine ⟨rfl, ?_, ?_, ?_⟩
    · exact hfd
    · show s.pool.total - (((s.pool.volumes ++ [Volume.mk s.pool.nextId size]).filter
          (fun v => v.vid ≠ s.pool.nextId)).map Volume.capacity).sum
        = s.pool.remaining_capacity
      rw [hfv]
      rfl
    · rw [hfd]
      simp

/-- Witness for C4: `NotFound` on an untracked identifier at the empty
registry, and an add-then-remove round trip of a 300-byte drive over the
1000-byte pool restoring the original state. -/
theorem remove_drive_spec_w :
    s0.remove_drive 42 = (s0, Except.error PisoError.NotFound) ∧
    ((s0.add_drive 300).1.remove_drive s0.pool.nextId).2 = Except.ok () ∧
    ((s0.add_drive 300).1.remove_drive s0.pool.nextId).1.m_drives = s0.m_drives ∧
    ((s0.add_drive 300).1.remove_drive s0.pool.nextId).1.pool.remaining_capacity
        = s0.pool.remaining_capacity ∧
    ((s0.add_drive 300).1.remove_drive s0.pool.nextId).1.m_drives.length + 1
        = (s0.add_drive 300).1.m_drives.length :=
  ⟨remove_drive_spec.1 s0 42 (by decide),
   (remove_drive_spec.2.2 s0 300 ⟨⟨by decide, by decide, by decide⟩, by decide, by decide⟩
      (by decide) (by decide)).1,
   (remove_drive_spec.2.2 s0 300 ⟨⟨by decide, by decide, by decide⟩, by decide, by decide⟩
      (by decide) (by decide)).2.1,
   (remove_drive_spec.2.2 s0 300 ⟨⟨by decide, by decide, by decide⟩, by decide, by decide⟩
      (by decide) (by decide)).2.2.1,
   (remove_drive_spec.2.2 s0 300 ⟨⟨by decide, by decide, by decide⟩, by decide, by decide⟩
      (by decide) (by decide)).2.2.2⟩

/-- Claim C7: in every reachable registry state the set of volume identifiers
held by the VirtualDrives is a subset of the identifiers the pool reports, and
the sum of the drives' capacities never exceeds the pool's total capacity;
reachability is closed under `add_drive`, `remove_drive` and
`rebuild_drives_from_volumes`, so every operation preserves both. -/
theorem capacity_invariants_spec (s : pISO) (h : Reachable s) :
    (∀ d ∈ s.m_drives, d.volumeId ∈ s.pool.ids) ∧
    s.used ≤ s.pool.total_capacity := by
  obtain ⟨⟨hcap, hvnd, hvlt⟩, hnd, hb⟩ := reachable_regInv s h
  constructor
  · intro d hd
    obtain ⟨v, hv, hvid, _⟩ := hb d hd
    rw [← hvid]
    exact List.mem_map_of_mem Volume.vid hv
  · exact Nat.le_trans (sum_caps_le_of_backed s.m_drives s.pool.volumes hnd hb) hcap

/-- Witness for C7 at a registry constructed over a pool holding one
10-byte volume. -/
theorem capacity_invariants_spec_w :
    (∀ d ∈ (pISO.construct ⟨1000, [⟨3, 10⟩], 8⟩).m_drives,
        d.volumeId ∈ (pISO.construct ⟨1000, [⟨3, 10⟩], 8⟩).pool.ids) ∧
    (pISO.construct ⟨1000, [⟨3, 10⟩], 8⟩).used
        ≤ (pISO.construct ⟨1000, [⟨3, 10⟩], 8⟩).pool.total_capacity :=
  capacity_invariants_spec (pISO.construct ⟨1000, [⟨3, 10⟩], 8⟩)
    (Reachable.boot ⟨1000, [⟨3, 10⟩], 8⟩ ⟨by decide, by decide, by decide⟩)

/-- Counterexample to claim C9 as stated: the header also exposes
`std::vector<VirtualDrive> &drives() { return m_drives; }`, a mutable
reference to the sequence, so a caller can replace the drive list through a
path that is none of `add_drive`, `remove_drive` or reconciliation. -/
theorem drives_accessor_counterexample :
    ¬ (∀ (s : pISO) (op : RegistryOp), (applyOp op s).m_drives ≠ s.m_drives →
        (∃ n, op = RegistryOp.addDrive n) ∨ (∃ i, op = RegistryOp.removeDrive i) ∨
        op = RegistryOp.rescan) := by
  intro h
  rcases h s0 (RegistryOp.drivesMutate (fun _ => [⟨99, 5⟩])) (by decide)
    with ⟨n, hn⟩ | ⟨i, hi⟩ | hr
  · cases hn
  · cases hi
  · cases hr

/-- Claim C9 amended: drives enter or leave the registry's sequence only via
`add_drive`, `remove_drive`, reconciliation — or the mutable `drives()`
accessor the header also exposes; no further path (navigation, the pure
queries) can change the sequence. -/
theorem drives_change_paths (s : pISO) (op : RegistryOp)
    (h : (applyOp op s).m_drives ≠ s.m_drives) :
    (∃ n, op = RegistryOp.addDrive n) ∨ (∃ i, op = RegistryOp.removeDrive i) ∨
    op = RegistryOp.rescan ∨
    (∃ f, op = RegistryOp.drivesMutate f) := by
  cases op with
  | addDrive n => exact Or.inl ⟨n, rfl⟩
  | removeDrive i => exact Or.inr (Or.inl ⟨i, rfl⟩)
  | rescan => exact Or.inr (Or.inr (Or.inl rfl))
  | drivesMutate f => exact Or.inr (Or.inr (Or.inr ⟨f, rfl⟩))
  | moveNext => exact absurd (on_next_preserves s).2 h
  | movePrev => exact absurd (on_prev_preserves s).2 h

/-- Witness for the amended C9 at the empty registry under the mutable
`drives()` accessor. -/
theorem drives_change_paths_w :
    (∃ n, RegistryOp.drivesMutate (fun _ => [VirtualDrive.mk 99 5])
        = RegistryOp.addDrive n) ∨
    (∃ i, RegistryOp.drivesMutate (fun _ => [VirtualDrive.mk 99 5])
        = RegistryOp.removeDrive i) ∨
    RegistryOp.drivesMutate (fun _ => [VirtualDrive.mk 99 5]) = RegistryOp.rescan ∨
    (∃ f, RegistryOp.drivesMutate (fun _ => [VirtualDrive.mk 99 5])
        = RegistryOp.drivesMutate f) :=
  drives_change_paths s0 (RegistryOp.drivesMutate (fun _ => [VirtualDrive.mk 99 5]))
    (by decide)
